import Mathlib

/-!
A shallow embedding of the connect-or-create translation slice of a GraphQL-to-Cypher
library, together with the query-builder fragments it relies on.

The translation functions (`createConnectOrCreateAndParams`, `mergeStatement`,
`createAuthStatement`, `getAutogeneratedParams`, `getCypherParameters`, ...) are
translated from the visible source. The query-builder core (environment, clauses,
`concat`, rendering) and the external collaborator helpers are not part of the visible
sources; those definitions are modelled from the specification and are marked as such
in their documentation. JavaScript object identity of builder references is modelled
by an explicit numeric id carried on the reference; JavaScript plain objects are
modelled as association lists with assignment-update semantics (`objSet`).
-/

/-- A scalar host-language value. -/
inductive ScalarValue where
  | str (s : String)
  | num (n : Int)
  | boolean (b : Bool)
  | null
deriving DecidableEq

/-- Host-language values that flow into query parameters, modelled to the depth
this slice exercises: scalars and flat lists of scalars. -/
inductive Value where
  | scalar (s : ScalarValue)
  | list (xs : List ScalarValue)
deriving DecidableEq

/-- Shorthand for a string-valued host value. -/
def Value.str (s : String) : Value := Value.scalar (ScalarValue.str s)

/-- Shorthand for an integer-valued host value. -/
def Value.num (n : Int) : Value := Value.scalar (ScalarValue.num n)

/-- A value sitting in parameter position inside the builder: either a `Param`
wrapping a host value, or a `RawCypher` fragment used in value position
(for example the text `randomUUID()`). -/
inductive CParam where
  | param (v : Value)
  | raw (s : String)
deriving DecidableEq

/-- Lookup in a JavaScript-object model (association list, first match). -/
def objGet {κ α : Type} [DecidableEq κ] : List (κ × α) → κ → Option α
  | [], _ => none
  | (k, v) :: rest, key => if k = key then some v else objGet rest key

/-- Property assignment on a JavaScript-object model: replaces the value in place
when the key is already present, otherwise appends the new entry at the end,
matching insertion-order semantics of JavaScript objects. -/
def objSet {κ α : Type} [DecidableEq κ] : List (κ × α) → κ → α → List (κ × α)
  | [], key, v => [(key, v)]
  | (k, w) :: rest, key, v =>
      if k = key then (k, v) :: rest else (k, w) :: objSet rest key v

/-- The value of the last assignment with the given key in an entry list
(`none` when the key is never assigned). -/
def assignLast {α : Type} : List (String × α) → String → Option α
  | [], _ => none
  | (k, v) :: rest, key =>
      match assignLast rest key with
      | some w => some w
      | none => if k = key then some v else none

/-- The value contributed by the last element whose optional key matches, for
folds that conditionally assign `keyOf f ↦ valOf f`. -/
def condAssignLast {α β : Type} (keyOf : α → Option String) (valOf : α → β) :
    List α → String → Option β
  | [], _ => none
  | f :: rest, key =>
      match condAssignLast keyOf valOf rest key with
      | some w => some w
      | none =>
          match keyOf f with
          | some kk => if kk = key then some (valOf f) else none
          | none => none

/-- JavaScript object spread: the entries of `b` assigned on top of a copy of `a`. -/
def objSpread {α : Type} (a b : List (String × α)) : List (String × α) :=
  b.foldl (fun acc kv => objSet acc kv.1 kv.2) a

/-- One step of a conditional object-building fold (the body of the reduce in
`getAutogeneratedParams`): assign `keyOf f ↦ valOf f` when the optional key is
present, otherwise keep the accumulator unchanged. -/
def condSetStep {α β : Type} (keyOf : α → Option String) (valOf : α → β)
    (acc : List (String × β)) (f : α) : List (String × β) :=
  match keyOf f with
  | some kk => objSet acc kk (valOf f)
  | none => acc

/-- Little-endian decimal digits of a natural number, with explicit fuel
(the number itself is always enough fuel). -/
def decDigitsAux : Nat → Nat → List Nat
  | 0, _ => []
  | fuel + 1, n => if n = 0 then [] else (n % 10) :: decDigitsAux fuel (n / 10)

/-- Little-endian decimal digits of a natural number. -/
def decDigits (n : Nat) : List Nat := decDigitsAux n n

/-- Recombine little-endian decimal digits into a natural number. -/
def ofDecDigits : List Nat → Nat
  | [] => 0
  | d :: rest => d + 10 * ofDecDigits rest

/-- The character for a single decimal digit. -/
def digitCharOf (d : Nat) : Char := Char.ofNat (48 + d)

/-- Decimal rendering of a natural number, as JavaScript template interpolation
produces for a number index. -/
def natToDecimal (n : Nat) : String :=
  if n = 0 then "0" else String.mk ((decDigits n).map digitCharOf).reverse

/-- An identity handle for an auto-named builder reference: object identity is
modelled by `id`, and `hint` is the naming hint the environment derives names from. -/
structure Ref where
  id : Nat
  hint : String
deriving DecidableEq

/-- A variable reference carrying a fixed, caller-chosen name (the builder's
`NamedVariable`): it renders to that name in every environment. -/
structure NamedVariable where
  name : String
deriving DecidableEq

/-- A node reference carrying a fixed, caller-chosen name (the builder's
`NamedNode`), plus its static labels. -/
structure NamedNode where
  name : String
  labels : List String
deriving DecidableEq

/-- A relationship reference (auto-named through the environment) between two
named nodes (the builder's `Relationship`). -/
structure RelationshipRef where
  ref : Ref
  source : NamedNode
  target : NamedNode
  relType : String
deriving DecidableEq

/-- Modelled from the spec: the per-build naming environment (its implementation
file is not among the visible sources). `bindings` maps reference identity to the
final rendered name; `paramCtr` and `pfx` drive parameter-name accumulation with
the caller-supplied parameter prefix. -/
structure Env where
  bindings : List (Nat × String)
  paramCtr : Nat
  pfx : String
deriving DecidableEq

/-- The names already allocated by an environment. -/
def usedNames (env : Env) : List String := env.bindings.map (fun b => b.2)

/-- The candidate name formed from a hint and a numeric suffix. -/
def candName (hint : String) (k : Nat) : String := hint ++ natToDecimal k

/-- First-fit search for an unused `hint ++ suffix` name, with fuel. -/
def firstFresh (used : List String) (hint : String) : Nat → Nat → String
  | 0, k => candName hint k
  | fuel + 1, k =>
      if candName hint k ∈ used then firstFresh used hint fuel (k + 1)
      else candName hint k

/-- Modelled from the spec: name allocation derives the name from the hint and,
on collision with a previously allocated different reference, appends the first
disambiguating numeric suffix that is still unused. -/
def freshName (used : List String) (hint : String) : String :=
  if hint ∈ used then firstFresh used hint (used.length + 1) 0 else hint

/-- Modelled from the spec: `nameFor` returns the memoized name when the
reference was already seen in this build, and otherwise allocates a fresh name
derived from the hint. -/
def nameFor (env : Env) (r : Ref) : String × Env :=
  match objGet env.bindings r.id with
  | some n => (n, env)
  | none =>
      let n := freshName (usedNames env) r.hint
      (n, { env with bindings := env.bindings ++ [(r.id, n)] })

/-- The name `nameFor` returns for a reference in a given environment. -/
def assignedName (env : Env) (r : Ref) : String := (nameFor env r).1

/-- Thread the environment through name allocation for a whole sequence of
references, in the order a build encounters them. -/
def allocAll (env : Env) (rs : List Ref) : Env :=
  rs.foldl (fun e r => (nameFor e r).2) env

/-- Well-formedness of an environment: reference identities are bound at most
once and no two bindings share a rendered name. -/
def envWF (env : Env) : Prop :=
  (env.bindings.map (fun b => b.1)).Nodup ∧ (env.bindings.map (fun b => b.2)).Nodup

instance (env : Env) : Decidable (envWF env) := by unfold envWF; infer_instance

/-- The owner of a property reference: a named node or an auto-named relationship. -/
inductive PropOwner where
  | onNode (n : NamedNode)
  | onRel (r : RelationshipRef)
deriving DecidableEq

/-- A `variable.property` reference used on the left of a SET-style assignment. -/
structure PropRef where
  owner : PropOwner
  propName : String
deriving DecidableEq

/-- A projection column of a WITH clause: `*`, a variable, or an aliased variable. -/
inductive WithProjection where
  | star
  | varProj (v : NamedVariable)
  | aliased (v : NamedVariable) (aliasName : String)
deriving DecidableEq

/-- Modelled from the spec: the clause fragment of the builder that this slice
uses. `seq` is the sequencing performed by `concat`; `raw` and `ret` carry the
render-time callback of a `RawCypher` (returning text and parameters given the
live environment). -/
inductive Clause where
  | empty
  | seq (a b : Clause)
  | merge (node : NamedNode) (whereProps : List (String × CParam))
      (onCreateSet : List (PropRef × CParam))
  | mergeRel (rel : RelationshipRef) (onCreateSet : List (PropRef × CParam))
  | withClause (projections : List WithProjection)
  | call (inner : Clause) (importedVariables : List NamedVariable)
  | ret (f : Env → String × List (String × Value))
  | raw (f : Env → String × List (String × Value))

/-- Join two rendered fragments on a newline, skipping empty fragments. -/
def seqText (a b : String) : String :=
  if a = "" then b else if b = "" then a else a ++ "\n" ++ b

/-- Render a parameter-position value, allocating a parameter name for a `Param`. -/
def renderCParam (p : CParam) (env : Env) : String × List (String × Value) × Env :=
  match p with
  | .raw s => (s, [], env)
  | .param v =>
      let name := env.pfx ++ "param" ++ natToDecimal env.paramCtr
      ("$" ++ name, [(name, v)], { env with paramCtr := env.paramCtr + 1 })

/-- Render the owner of a property reference to its variable name. -/
def renderOwner (o : PropOwner) (env : Env) : String × Env :=
  match o with
  | .onNode n => (n.name, env)
  | .onRel r => nameFor env r.ref

/-- Render a property reference as `owner.prop`. -/
def renderPropRef (p : PropRef) (env : Env) : String × Env :=
  let (s, env1) := renderOwner p.owner env
  (s ++ "." ++ p.propName, env1)

/-- Render `key: value` fragments for pattern properties, threading the environment. -/
def renderParamPairs : List (String × CParam) → Env →
    List String × List (String × Value) × Env
  | [], env => ([], [], env)
  | (k, p) :: rest, env =>
      let (s, ps, e1) := renderCParam p env
      let (ss, pss, e2) := renderParamPairs rest e1
      ((k ++ ": " ++ s) :: ss, ps ++ pss, e2)

/-- Render `owner.prop = value` fragments for a SET-style clause. -/
def renderSetPairs : List (PropRef × CParam) → Env →
    List String × List (String × Value) × Env
  | [], env => ([], [], env)
  | (pr, p) :: rest, env =>
      let (ls, e1) := renderPropRef pr env
      let (vs, pvs, e2) := renderCParam p e1
      let (ss, pss, e3) := renderSetPairs rest e2
      ((ls ++ " = " ++ vs) :: ss, pvs ++ pss, e3)

/-- Render a node pattern `(name:Label \x7b props \x7d)`. -/
def nodePatternText (n : NamedNode) (whereProps : List (String × CParam)) (env : Env) :
    String × List (String × Value) × Env :=
  let labelStr := String.join (n.labels.map (fun l => ":" ++ l))
  let (props, params, e1) := renderParamPairs whereProps env
  let propStr := if props.isEmpty then "" else " \x7b " ++ String.intercalate ", " props ++ " \x7d"
  ("(" ++ n.name ++ labelStr ++ propStr ++ ")", params, e1)

/-- Render one WITH projection column. -/
def renderProjection : WithProjection → String
  | .star => "*"
  | .varProj v => v.name
  | .aliased v a => v.name ++ " AS " ++ a

/-- Modelled from the spec: the renderer. A single depth-first pass producing
query text, accumulated parameters, and the updated environment. -/
def render : Clause → Env → String × List (String × Value) × Env
  | .empty, env => ("", [], env)
  | .seq a b, env =>
      let (sa, pa, e1) := render a env
      let (sb, pb, e2) := render b e1
      (seqText sa sb, pa ++ pb, e2)
  | .merge n whereProps onCreateSet, env =>
      let (pat, pparams, e1) := nodePatternText n whereProps env
      let (sets, sparams, e2) := renderSetPairs onCreateSet e1
      let onCreateStr :=
        if sets.isEmpty then "" else "\nON CREATE SET " ++ String.intercalate ", " sets
      ("MERGE " ++ pat ++ onCreateStr, pparams ++ sparams, e2)
  | .mergeRel rel onCreateSet, env =>
      let (rn, e1) := nameFor env rel.ref
      let (sets, sparams, e2) := renderSetPairs onCreateSet e1
      let onCreateStr :=
        if sets.isEmpty then "" else "\nON CREATE SET " ++ String.intercalate ", " sets
      ("MERGE (" ++ rel.source.name ++ ")-[" ++ rn ++ ":" ++ rel.relType ++ "]->(" ++
        rel.target.name ++ ")" ++ onCreateStr, sparams, e2)
  | .withClause projections, env =>
      ("WITH " ++ String.intercalate ", " (projections.map renderProjection), [], env)
  | .call inner importedVariables, env =>
      let (si, pInner, e1) := render inner env
      let importLine :=
        if importedVariables.isEmpty then ""
        else "WITH " ++ String.intercalate ", " (importedVariables.map (fun v => v.name)) ++ "\n"
      ("CALL \x7b\n" ++ importLine ++ si ++ "\n\x7d", pInner, e1)
  | .ret f, env =>
      let (s, ps) := f env
      ("RETURN " ++ s, ps, env)
  | .raw f, env =>
      let (s, ps) := f env
      (s, ps, env)

/-- Modelled from the spec: `concat` sequences clauses top-to-bottom, skipping
absent (undefined) clauses, sharing one environment and merging parameter tables. -/
def concat (clauses : List (Option Clause)) : Clause :=
  (clauses.filterMap id).foldl Clause.seq Clause.empty

/-- The output of a build: query text plus the flattened parameter table. -/
structure CypherResult where
  query : String
  params : List (String × Value)
deriving DecidableEq

/-- Modelled from the spec: the build entry point constructs one fresh
environment seeded with the parameter prefix, renders the root clause once, and
returns the text with the accumulated parameters. -/
def build (c : Clause) (paramPfx : String) : CypherResult :=
  let env0 : Env := { bindings := [], paramCtr := 0, pfx := paramPfx }
  let (q, ps, _) := render c env0
  { query := q, params := ps }

/-- A primitive (scalar) schema field of a node or relationship type. The
optional `dbPropertyName` is the database property it maps to; `autogenerate`
marks an auto-generated id field, `callback` a resolver-populated field. -/
structure PrimitiveField where
  fieldName : String
  dbPropertyName : Option String
  autogenerate : Bool
  callback : Bool
deriving DecidableEq

/-- A temporal schema field; `typeName` is the type name from its type metadata
(for example DateTime or Time) and `timestamps` the timestamp events it tracks. -/
structure TemporalField where
  fieldName : String
  dbPropertyName : Option String
  typeName : String
  timestamps : List String
deriving DecidableEq

/-- A constrainable field as consulted by `getCypherParameters`: its input name,
its optional database property name, and whether its type metadata declares an
array type. -/
structure ConstrainableField where
  fieldName : String
  dbPropertyName : Option String
  array : Bool
deriving DecidableEq

/-- The schema node model consumed by this slice. `labels` models
`getLabels(context)`; `auth` models the presence of auth rules on the node. -/
structure Node where
  name : String
  primitiveFields : List PrimitiveField
  temporalFields : List TemporalField
  constrainableFields : List ConstrainableField
  labels : List String
  auth : Bool
deriving DecidableEq

/-- The relationship-properties model found through `context.relationships`. -/
structure RelModel where
  properties : Option String
  primitiveFields : List PrimitiveField
  temporalFields : List TemporalField
deriving DecidableEq

/-- The relation field being connected: its relationship type, its direction
(the source uses the strings IN and OUT), and its optional properties name. -/
structure RelationField where
  relType : String
  direction : String
  properties : Option String
deriving DecidableEq

/-- The translation context consumed by this slice. `authProvider` models the
external collaborator `createAuthAndParams` (modelled from the spec: an
auth-predicate provider that, given a graph entity and an operation set, returns
an optional boolean expression plus its own parameters); its arguments are the
entity, the operations, the variable name and the chain string, and it returns
the predicate text (empty for no predicate) with its parameters. -/
structure Context where
  subscriptionsEnabled : Bool
  relationships : List RelModel
  authProvider : Node → List String → String → String → String × List (String × Value)

/-- One connect-or-create input item: the `where.node` record, the
`onCreate.node` record and the `onCreate.edge` record (absent records are
modelled as empty). -/
structure CreateOrConnectInput where
  whereNode : List (String × Value)
  onCreateNode : List (String × Value)
  onCreateEdge : List (String × Value)
deriving DecidableEq

/-- A value that is either a single item or a list of items. -/
inductive OneOrMany (α : Type) where
  | one (a : α)
  | many (xs : List α)

/-- Modelled from the spec: `asArray` from the shared utilities (not among the
visible sources) normalizes a single item into a one-element list. -/
def asArray {α : Type} : OneOrMany α → List α
  | .one a => [a]
  | .many xs => xs

/-- Modelled from the spec: `asArray` applied to a host value coerces a
non-array value into an array (null becomes the empty array). -/
def asArrayValue (v : Value) : Value :=
  match v with
  | .list xs => .list xs
  | .scalar .null => .list []
  | .scalar s => .list [s]

/-- Lower-case an ASCII letter. -/
def lowerChar (c : Char) : Char :=
  if 'A' ≤ c ∧ c ≤ 'Z' then Char.ofNat (c.toNat + 32) else c

/-- JavaScript `toLowerCase` on the ASCII strings this slice uses. -/
def strToLower (s : String) : String := String.mk (s.data.map lowerChar)

/-- JavaScript truthiness of an optional string: undefined and the empty string
are falsy. -/
def strTruthy (o : Option String) : Option String :=
  match o with
  | none => none
  | some s => if s = "" then none else some s

/-- JavaScript `a || b` on optional strings, with undefined and the empty
string falsy on the left. -/
def jsOrOpt (a b : Option String) : Option String :=
  match strTruthy a with
  | some s => some s
  | none => b

/-- Modelled from the spec: `omitFields` from the shared utilities removes the
named keys from an object. -/
def omitFields {α : Type} (obj : List (String × α)) (fields : List String) :
    List (String × α) :=
  obj.filter (fun kv => !(fields.contains kv.1))

/-- Modelled from the spec: the value-conversion collaborator
`convertToCypherParams` turns each entry of a host-value record into a `Param`
node under the same key. -/
def convertToCypherParams (m : List (String × Value)) : List (String × CParam) :=
  m.map (fun kv => (kv.1, CParam.param kv.2))

/-- Modelled from the spec: subscriptions helper that filters the meta variable
out of a projection list. -/
def filterMetaVariable (vars : List String) : List String :=
  vars.filter (fun v => v != "meta")

/-- Modelled from the spec: the event-metadata provider. Given the
environment-resolved relationship and endpoint variable names, it returns a raw
fragment string for a WITH projection describing the connect event. -/
def createRelEventMeta (event relVariable fromVariable toVariable typename
    fromTypename toTypename : String) : String :=
  "meta + \x7b event: \"" ++ event ++ "\", id_from: id(" ++ fromVariable ++
    "), id_to: id(" ++ toVariable ++ "), id: id(" ++ relVariable ++
    "), relationshipName: \"" ++ typename ++ "\", fromTypename: \"" ++
    fromTypename ++ "\", toTypename: \"" ++ toTypename ++ "\" \x7d AS meta"

/-- Modelled from the spec: the forbidden-error constant surfaced by auth
validation. -/
def AUTH_FORBIDDEN_ERROR : String := "@neo4j/graphql/FORBIDDEN"

/-- The database-level field an input key targets on a node: the matching
constrainable field mapping (database property name when present, otherwise the
field name), or the key itself when no field matches. -/
def targetFieldOf (node : Node) (key : String) : String :=
  match node.constrainableFields.find? (fun f => f.fieldName == key) with
  | some f =>
      match strTruthy f.dbPropertyName with
      | some db => db
      | none => f.fieldName
  | none => key

/-- Modelled from the spec: `findConflictingProperties` (its file is not among
the visible sources). Per the spec, a conflict is two creation-time property
assignments that target the same field with different intended values; the
result lists the input keys involved. -/
def findConflictingProperties (node : Node) (input : List (String × Value)) :
    List String :=
  input.filterMap (fun kv =>
    if input.any (fun kv2 =>
        kv2.1 != kv.1 && targetFieldOf node kv2.1 == targetFieldOf node kv.1 &&
          kv2.2 != kv.2)
    then some kv.1 else none)

/-- The error message raised for conflicting creation-time modifications,
naming each conflicting field and the node type. -/
def conflictErrorMessage (refNode : Node) (conflictingProperties : List String) :
    String :=
  "Conflicting modification of " ++
    String.intercalate ", " (conflictingProperties.map (fun n => "[[" ++ n ++ "]]")) ++
    " on type " ++ refNode.name

/-- The eager conflict check `createConnectOrCreateAndParams` runs over every
input item before constructing any clause: the first item with conflicting
properties aborts the call with the descriptive error. -/
def checkConflicts (refNode : Node) : List CreateOrConnectInput → Except String Unit
  | [] => .ok ()
  | item :: rest =>
      let conflictingProperties := findConflictingProperties refNode item.onCreateNode
      if conflictingProperties.length > 0 then
        .error (conflictErrorMessage refNode conflictingProperties)
      else checkConflicts refNode rest

/-- Modelled from the spec: `addCallbackAndSetParamCypher` (its file is not
among the visible sources) registers a resolver callback for a callback field
and yields the SET pair assigning the resolved parameter; fields without a
callback contribute nothing. -/
def addCallbackAndSetParamCypher (field : PrimitiveField) (varName : String)
    (node : NamedNode) : Option (PropRef × CParam) :=
  if field.callback then
    some ({ owner := PropOwner.onNode node, propName := field.fieldName },
      CParam.raw ("$resolvedCallbacks." ++ varName ++ "_" ++ field.fieldName))
  else none

/-- The callback-carrying primitive fields of a node. -/
def getCallbackFields (node : Node) : List PrimitiveField :=
  node.primitiveFields.filter (fun f => f.callback)

/-- The auto-generated default parameters of a node or relationship: primitive
fields marked autogenerate map (under their database property name, when
present) to the raw fragment randomUUID(), and DateTime or Time temporal fields
with a CREATE timestamp map to the lower-cased type name as a function call;
the primitive entries are spread over the temporal ones. -/
def getAutogeneratedParams (primitiveFields : List PrimitiveField)
    (temporalFields : List TemporalField) : List (String × CParam) :=
  let autogeneratedFields :=
    (primitiveFields.filter (fun f => f.autogenerate)).foldl
      (condSetStep (fun f => strTruthy f.dbPropertyName)
        (fun _ => CParam.raw "randomUUID()")) []
  let autogeneratedTemporalFields :=
    (temporalFields.filter (fun f =>
        (f.typeName == "DateTime" || f.typeName == "Time") &&
          f.timestamps.contains "CREATE")).foldl
      (condSetStep (fun f => strTruthy f.dbPropertyName)
        (fun f => CParam.raw (strToLower f.typeName ++ "()"))) []
  objSpread autogeneratedTemporalFields autogeneratedFields

/-- The key/value emitted by `getCypherParameters` for one input entry: the key
is the matching constrainable field's database property name or field name
(JavaScript-falsy fallback to the input key), and the value is coerced to an
array when the field's type metadata declares an array. -/
def cypherParamEntry (node : Option Node) (kv : String × Value) : String × Value :=
  let nodeField := node.bind (fun n => n.constrainableFields.find? (fun f => f.fieldName == kv.1))
  let nodeFieldName := jsOrOpt (nodeField.bind (fun f => f.dbPropertyName))
    (nodeField.map (fun f => f.fieldName))
  let fieldName :=
    match jsOrOpt nodeFieldName (some kv.1) with
    | some s => s
    | none => kv.1
  let valueOrArray :=
    match nodeField with
    | some f => if f.array then asArrayValue kv.2 else kv.2
    | none => kv.2
  (fieldName, valueOrArray)

/-- Translation of `getCypherParameters`: fold the input record into an object
keyed by each entry's emitted field name, then convert every value to a `Param`. -/
def getCypherParameters (onCreateParams : List (String × Value)) (node : Option Node) :
    List (String × CParam) :=
  convertToCypherParams
    (onCreateParams.foldl
      (fun acc kv =>
        let e := cypherParamEntry node kv
        objSet acc e.1 e.2) [])

/-- The `ON CREATE SET` object for the merged node in `mergeStatement`: the
auto-generated defaults minus the keys already fixed by the where parameters,
spread under the explicit onCreate parameters. -/
def mergeNodeOnCreateObject (input : CreateOrConnectInput) (refNode : Node) :
    List (String × CParam) :=
  let whereNodeParameters := getCypherParameters input.whereNode (some refNode)
  let autogeneratedParams :=
    getAutogeneratedParams refNode.primitiveFields refNode.temporalFields
  let unsetAutogeneratedParams :=
    omitFields autogeneratedParams (whereNodeParameters.map (fun kv => kv.1))
  objSpread unsetAutogeneratedParams (getCypherParameters input.onCreateNode (some refNode))

/-- Translation of `mergeStatement`: merge the referenced node with its where
parameters and onCreate assignments, merge the relationship with its onCreate
assignments, and, when subscriptions are enabled, append a render-time raw WITH
fragment carrying the connect event metadata. The fresh relationship object
identity is modelled by `relId`. -/
def mergeStatement (input : CreateOrConnectInput) (refNode parentRefNode : Node)
    (context : Context) (relationField : RelationField) (parentNode : NamedNode)
    (varName : String) (withVars : List String) (relId : Nat) : Clause :=
  let whereNodeParameters := getCypherParameters input.whereNode (some refNode)
  let node : NamedNode := { name := varName, labels := refNode.labels }
  let callbackFields := getCallbackFields refNode
  let callbackParams :=
    callbackFields.filterMap (fun f => addCallbackAndSetParamCypher f varName node)
  let rawNodeParams := mergeNodeOnCreateObject input refNode
  let onCreateParams :=
    rawNodeParams.map (fun kv => ({ owner := PropOwner.onNode node, propName := kv.1 }, kv.2))
  let merge := Clause.merge node whereNodeParameters (onCreateParams ++ callbackParams)
  let relationshipFields :=
    context.relationships.find? (fun x => x.properties == relationField.properties)
  let autogeneratedRelationshipParams :=
    match relationshipFields with
    | some r => getAutogeneratedParams r.primitiveFields r.temporalFields
    | none => []
  let rawOnCreateRelationshipParams := convertToCypherParams input.onCreateEdge
  let rawRelationshipParams :=
    objSpread autogeneratedRelationshipParams rawOnCreateRelationshipParams
  let relationship : RelationshipRef :=
    { ref := { id := relId, hint := "this" }
      source := if relationField.direction = "IN" then node else parentNode
      target := if relationField.direction = "IN" then parentNode else node
      relType := relationField.relType }
  let onCreateRelationshipParams :=
    rawRelationshipParams.map
      (fun kv => ({ owner := PropOwner.onRel relationship, propName := kv.1 }, kv.2))
  let relationshipMerge := Clause.mergeRel relationship onCreateRelationshipParams
  let withClause : Option Clause :=
    if context.subscriptionsEnabled then
      let fromTypename :=
        if relationField.direction = "IN" then refNode.name else parentRefNode.name
      let toTypename :=
        if relationField.direction = "IN" then parentRefNode.name else refNode.name
      some (Clause.raw (fun env =>
        let eventWithMetaStr := createRelEventMeta "connect"
          (nameFor env relationship.ref).1 relationship.source.name
          relationship.target.name relationField.relType fromTypename toTypename
        ("WITH " ++ eventWithMetaStr ++ ", " ++
          String.intercalate ", " (filterMetaVariable (withVars ++ [varName])), [])))
    else none
  concat [some merge, some relationshipMerge, withClause]

/-- Translation of `createAuthStatement`: no clause when the node has no auth
rules or the provider yields an empty predicate; otherwise a raw clause
validating the predicate with the forbidden message, carrying the provider's
parameters. -/
def createAuthStatement (node : Node) (context : Context) (nodeName : String) :
    Option Clause :=
  if node.auth then
    let auth := context.authProvider node ["CONNECT", "CREATE"] nodeName
      (nodeName ++ node.name ++ "_allow")
    if auth.1 = "" then none
    else
      some (Clause.raw (fun _ =>
        ("CALL apoc.util.validate(NOT (" ++ auth.1 ++ "), \"" ++
          AUTH_FORBIDDEN_ERROR ++ "\", [0])", auth.2)))
  else none

/-- Translation of `createConnectOrCreatePartialStatement`: the merge query,
followed by `WITH *` and the auth query when one exists. -/
def createConnectOrCreatePartialStatement (input : CreateOrConnectInput)
    (baseName parentVar : String) (relationField : RelationField)
    (refNode node : Node) (context : Context) (withVars : List String)
    (relId : Nat) : Clause :=
  let mergeQuery := mergeStatement input refNode node context relationField
    { name := parentVar, labels := [] } baseName withVars relId
  let authQuery := createAuthStatement refNode context baseName
  match authQuery with
  | some aq =>
      concat [some mergeQuery, some (Clause.withClause [WithProjection.star]), some aq]
  | none => mergeQuery

/-- The base name of the i-th partial statement: the variable name with the
decimal index appended. -/
def subqueryBaseName (varName : String) (index : Nat) : String :=
  varName ++ natToDecimal index

/-- Map with the element index, as JavaScript `map((item, index) => ...)`. -/
def mapWithIndex {α β : Type} (f : Nat → α → β) : Nat → List α → List β
  | _, [] => []
  | i, a :: rest => f i a :: mapWithIndex f (i + 1) rest

/-- The partial statements built by `createConnectOrCreateAndParams`, one per
input item, each with base name `varName ++ index`. The index also serves as
the fresh relationship identity for that statement. -/
def connectOrCreateStatements (input : OneOrMany CreateOrConnectInput)
    (varName parentVar : String) (relationField : RelationField)
    (refNode node : Node) (context : Context) (withVars : List String) :
    List Clause :=
  mapWithIndex
    (fun index inputItem =>
      createConnectOrCreatePartialStatement inputItem (subqueryBaseName varName index)
        parentVar relationField refNode node context withVars index) 0 (asArray input)

/-- Wrap one partial statement: a WITH projection of the enclosing variables
immediately followed by a CALL subquery importing those same variables, the
subquery returning the count marker (or the subscriptions meta projection).
The source also builds a trailing WITH through a second concat call when
subscriptions are enabled but discards that result, so the wrapped clause is
returned unchanged. -/
def wrapConnectOrCreate (context : Context) (withVarsVariables : List NamedVariable)
    (statement : Clause) : Clause :=
  let countResult : Env → String × List (String × Value) := fun _ =>
    (if context.subscriptionsEnabled then "meta as update_meta" else "COUNT(*) AS _", [])
  let returnStatement := Clause.ret countResult
  let withStatement :=
    Clause.withClause (withVarsVariables.map WithProjection.varProj)
  let callStatement :=
    Clause.call (concat [some statement, some returnStatement]) withVarsVariables
  concat [some withStatement, some callStatement]

/-- The wrapped per-item subqueries of `createConnectOrCreateAndParams`. -/
def connectOrCreateWrappedQueries (input : OneOrMany CreateOrConnectInput)
    (varName parentVar : String) (relationField : RelationField)
    (refNode node : Node) (context : Context) (withVars : List String) :
    List Clause :=
  (connectOrCreateStatements input varName parentVar relationField refNode node
      context withVars).map
    (wrapConnectOrCreate context (withVars.map (fun n => { name := n })))

/-- Translation of `createConnectOrCreateAndParams`: check every input item for
conflicting creation-time properties before any clause is constructed, then
build the concatenation of the wrapped subqueries with the parameter prefix
derived from the variable name. -/
def createConnectOrCreateAndParams (input : OneOrMany CreateOrConnectInput)
    (varName parentVar : String) (relationField : RelationField)
    (refNode node : Node) (context : Context) (withVars : List String) :
    Except String CypherResult :=
  match checkConflicts refNode (asArray input) with
  | .error e => .error e
  | .ok _ =>
      let wrappedQueries := connectOrCreateWrappedQueries input varName parentVar
        relationField refNode node context withVars
      let query := concat (wrappedQueries.map some)
      .ok (build query (varName ++ "_"))

/-- A sample node with one auto-generated primitive field, used to exercise the
translation on concrete inputs. -/
def sampleNode : Node :=
  { name := "Movie"
    primitiveFields :=
      [{ fieldName := "id", dbPropertyName := some "id", autogenerate := true,
         callback := false }]
    temporalFields := []
    constrainableFields :=
      [{ fieldName := "id", dbPropertyName := some "id", array := false },
       { fieldName := "title", dbPropertyName := some "title", array := false }]
    labels := ["Movie"]
    auth := false }

/-- A sample input whose onCreate record explicitly assigns the auto-generated
field. -/
def sampleInput : CreateOrConnectInput :=
  { whereNode := [("title", Value.str "m1")]
    onCreateNode := [("id", Value.str "explicit")]
    onCreateEdge := [] }

/-- A sample node on which two distinct input keys target the same database
property. -/
def clashNode : Node :=
  { name := "Movie"
    primitiveFields := []
    temporalFields := []
    constrainableFields :=
      [{ fieldName := "id", dbPropertyName := some "db_id", array := false },
       { fieldName := "ident", dbPropertyName := some "db_id", array := false }]
    labels := ["Movie"]
    auth := false }

/-- A sample input with two assignments that clash on the same target field
with different values. -/
def clashInput : CreateOrConnectInput :=
  { whereNode := []
    onCreateNode := [("id", Value.str "a"), ("ident", Value.str "b")]
    onCreateEdge := [] }

/-- A sample node with an array-typed constrainable field. -/
def arrayNode : Node :=
  { name := "Movie"
    primitiveFields := []
    temporalFields := []
    constrainableFields :=
      [{ fieldName := "tags", dbPropertyName := some "tagList", array := true }]
    labels := ["Movie"]
    auth := false }

/-- Sample primitive fields with one auto-generated entry. -/
def samplePrimitiveFields : List PrimitiveField :=
  [{ fieldName := "uuid", dbPropertyName := some "uuid", autogenerate := true,
     callback := false }]

/-- Sample temporal fields with one CREATE-stamped DateTime entry. -/
def sampleTemporalFields : List TemporalField :=
  [{ fieldName := "createdAt", dbPropertyName := some "createdAt",
     typeName := "DateTime", timestamps := ["CREATE"] }]

/-- A sample context with subscriptions disabled and no auth predicate. -/
def sampleContextOff : Context :=
  { subscriptionsEnabled := false
    relationships := []
    authProvider := fun _ _ _ _ => ("", []) }

/-- A sample context with subscriptions enabled and no auth predicate. -/
def sampleContextOn : Context :=
  { subscriptionsEnabled := true
    relationships := []
    authProvider := fun _ _ _ _ => ("", []) }

/-- A sample context whose auth provider yields a non-empty predicate. -/
def sampleContextAuth : Context :=
  { subscriptionsEnabled := false
    relationships := []
    authProvider := fun _ _ _ _ => ("this0.id IS NOT NULL", [("authp", Value.num 1)]) }

/-- The sample node with auth rules enabled. -/
def authNode : Node := { sampleNode with auth := true }

/-- A sample relation field. -/
def sampleRelField : RelationField :=
  { relType := "HAS_MOVIE", direction := "OUT", properties := none }

theorem strData_append (a b : String) : (a ++ b).data = a.data ++ b.data :=
  String.data_append ..

theorem strAppend_cancel_left {a b c : String} (h : a ++ b = a ++ c) : b = c := by
  have hd := congrArg String.data h
  rw [strData_append, strData_append] at hd
  exact String.ext (List.append_cancel_left hd)

theorem strAppend_ne_empty_left {a : String} (b : String) (h : a ≠ "") :
    a ++ b ≠ "" := by
  intro hab
  apply h
  have hd := congrArg String.data hab
  rw [strData_append] at hd
  rcases List.append_eq_nil.mp hd with ⟨ha, _⟩
  exact String.ext ha

theorem ofDecDigits_decDigitsAux :
    ∀ fuel n : Nat, n ≤ fuel → ofDecDigits (decDigitsAux fuel n) = n := by
  intro fuel
  induction fuel with
  | zero => intro n h; interval_cases n; simp [decDigitsAux, ofDecDigits]
  | succ fuel ih =>
      intro n h
      by_cases hn : n = 0
      · simp [decDigitsAux, hn, ofDecDigits]
      · have hlt : n / 10 < n := Nat.div_lt_self (Nat.pos_of_ne_zero hn) (by norm_num)
        have hdiv : n / 10 ≤ fuel := by omega
        simp only [decDigitsAux, hn, if_false, ofDecDigits, ih _ hdiv]
        omega

theorem ofDecDigits_decDigits (n : Nat) : ofDecDigits (decDigits n) = n :=
  ofDecDigits_decDigitsAux n n (Nat.le_refl n)

theorem decDigitsAux_lt_ten :
    ∀ fuel n d : Nat, d ∈ decDigitsAux fuel n → d < 10 := by
  intro fuel
  induction fuel with
  | zero => intro n d h; simp [decDigitsAux] at h
  | succ fuel ih =>
      intro n d h
      by_cases hn : n = 0
      · simp [decDigitsAux, hn] at h
      · simp only [decDigitsAux, hn, if_false, List.mem_cons] at h
        rcases h with h | h
        · omega
        · exact ih _ _ h

theorem digitCharOf_toNat : ∀ d, d < 10 → (digitCharOf d).toNat = 48 + d := by
  decide

theorem map_digitCharOf_decode (l : List Nat) (h : ∀ d ∈ l, d < 10) :
    (l.map digitCharOf).map (fun c => c.toNat - 48) = l := by
  rw [List.map_map]
  have : ∀ d ∈ l, ((fun c => Char.toNat c - 48) ∘ digitCharOf) d = id d := by
    intro d hd
    simp only [Function.comp_apply, id_eq, digitCharOf_toNat d (h d hd)]
    omega
  rw [List.map_congr_left this, List.map_id]

theorem decDigits_no_zero_singleton (n : Nat) (hn : n ≠ 0)
    (h : decDigits n = [0]) : False := by
  have := ofDecDigits_decDigits n
  rw [h] at this
  simp [ofDecDigits] at this
  omega

theorem natToDecimal_inj : ∀ {m n : Nat}, natToDecimal m = natToDecimal n → m = n := by
  intro m n h
  unfold natToDecimal at h
  by_cases hm : m = 0 <;> by_cases hn : n = 0
  · omega
  · exfalso
    simp only [hm, if_true, hn, if_false] at h
    have hd := congrArg String.data h
    have hzero : ("0" : String).data = ['0'] := rfl
    simp only [hzero] at hd
    have hdd : (decDigits n).map digitCharOf = ['0'] := by
      have := congrArg List.reverse hd
      simpa using this.symm
    have : decDigits n = [0] := by
      have := congrArg (List.map (fun c => c.toNat - 48)) hdd
      rw [map_digitCharOf_decode (decDigits n) (decDigitsAux_lt_ten n n)] at this
      simpa using this
    exact decDigits_no_zero_singleton n hn this
  · exfalso
    simp only [hn, if_true, hm, if_false] at h
    have hd := congrArg String.data h
    have hzero : ("0" : String).data = ['0'] := rfl
    simp only [hzero] at hd
    have hdd : (decDigits m).map digitCharOf = ['0'] := by
      have := congrArg List.reverse hd
      simpa using this
    have : decDigits m = [0] := by
      have := congrArg (List.map (fun c => c.toNat - 48)) hdd
      rw [map_digitCharOf_decode (decDigits m) (decDigitsAux_lt_ten m m)] at this
      simpa using this
    exact decDigits_no_zero_singleton m hm this
  · simp only [hm, hn, if_false] at h
    have hd := congrArg String.data h
    simp only [String.mk] at hd
    have hrev : (decDigits m).map digitCharOf = (decDigits n).map digitCharOf :=
      List.reverse_inj.mp hd
    have hdig : decDigits m = decDigits n := by
      have := congrArg (List.map (fun c => c.toNat - 48)) hrev
      rw [map_digitCharOf_decode (decDigits m) (decDigitsAux_lt_ten m m),
        map_digitCharOf_decode (decDigits n) (decDigitsAux_lt_ten n n)] at this
      exact this
    have := congrArg ofDecDigits hdig
    rwa [ofDecDigits_decDigits, ofDecDigits_decDigits] at this

theorem candName_inj {hint : String} {i j : Nat} (h : candName hint i = candName hint j) :
    i = j := by
  unfold candName at h
  exact natToDecimal_inj (strAppend_cancel_left h)

theorem firstFresh_not_mem (used : List String) (hint : String) :
    ∀ fuel k, (∃ j ∈ List.range' k fuel, candName hint j ∉ used) →
      firstFresh used hint fuel k ∉ used := by
  intro fuel
  induction fuel with
  | zero =>
      intro k h
      rcases h with ⟨j, hj, _⟩
      simp at hj
  | succ fuel ih =>
      intro k h
      by_cases hc : candName hint k ∈ used
      · simp only [firstFresh, if_pos hc]
        apply ih
        rcases h with ⟨j, hj, hnot⟩
        rw [List.range'_succ] at hj
        rcases List.mem_cons.mp hj with rfl | hj
        · exact absurd hc hnot
        · exact ⟨j, hj, hnot⟩
      · simp only [firstFresh, if_neg hc]
        exact hc

theorem exists_fresh_cand (used : List String) (hint : String) :
    ∃ j ∈ List.range' 0 (used.length + 1), candName hint j ∉ used := by
  by_contra hcon
  push_neg at hcon
  have hsub : (List.range' 0 (used.length + 1)).map (candName hint) ⊆ used := by
    intro x hx
    rcases List.mem_map.mp hx with ⟨j, hj, rfl⟩
    exact hcon j hj
  have hnodup : ((List.range' 0 (used.length + 1)).map (candName hint)).Nodup :=
    (List.nodup_range' ..).map (fun _ _ hab => candName_inj hab)
  have hlen := (hnodup.subperm hsub).length_le
  simp at hlen

theorem freshName_not_mem (used : List String) (hint : String) :
    freshName used hint ∉ used := by
  unfold freshName
  by_cases h : hint ∈ used
  · rw [if_pos h]
    exact firstFresh_not_mem used hint _ 0 (exists_fresh_cand used hint)
  · rw [if_neg h]
    exact h

theorem objGet_append {κ α : Type} [DecidableEq κ] (l1 l2 : List (κ × α)) (k : κ) :
    objGet (l1 ++ l2) k =
      match objGet l1 k with
      | some v => some v
      | none => objGet l2 k := by
  induction l1 with
  | nil => simp [objGet]
  | cons kv rest ih =>
      rcases kv with ⟨k0, v0⟩
      by_cases hk : k0 = k
      · simp [objGet, hk]
      · simp [objGet, hk, ih]

theorem objGet_mem {κ α : Type} [DecidableEq κ] :
    ∀ {l : List (κ × α)} {k : κ} {v : α}, objGet l k = some v → (k, v) ∈ l := by
  intro l
  induction l with
  | nil => intro k v h; simp [objGet] at h
  | cons kv rest ih =>
      intro k v h
      rcases kv with ⟨k0, v0⟩
      by_cases hk : k0 = k
      · rw [objGet, if_pos hk] at h
        subst hk
        cases h
        exact List.mem_cons_self ..
      · rw [objGet, if_neg hk] at h
        exact List.mem_cons_of_mem _ (ih h)

theorem objGet_none_keys {κ α : Type} [DecidableEq κ] :
    ∀ {l : List (κ × α)} {k : κ}, objGet l k = none → k ∉ l.map Prod.fst := by
  intro l
  induction l with
  | nil => intro k _; simp
  | cons kv rest ih =>
      intro k h
      rcases kv with ⟨k0, v0⟩
      by_cases hk : k0 = k
      · rw [objGet, if_pos hk] at h
        cases h
      · rw [objGet, if_neg hk] at h
        simp only [List.map_cons, List.mem_cons]
        rintro (rfl | hmem)
        · exact hk rfl
        · exact ih h hmem

theorem nameFor_of_bound {env : Env} {r : Ref} {n : String}
    (h : objGet env.bindings r.id = some n) : nameFor env r = (n, env) := by
  unfold nameFor
  rw [h]

theorem nameFor_binds (env : Env) (r : Ref) :
    objGet ((nameFor env r).2).bindings r.id = some ((nameFor env r).1) := by
  unfold nameFor
  cases hob : objGet env.bindings r.id with
  | some n => simpa using hob
  | none =>
      simp only [objGet_append, hob]
      simp [objGet]

theorem nameFor_preserves {env : Env} {r : Ref} {i : Nat} {n : String}
    (h : objGet env.bindings i = some n) :
    objGet ((nameFor env r).2).bindings i = some n := by
  unfold nameFor
  cases hob : objGet env.bindings r.id with
  | some m => simpa using h
  | none => simp [objGet_append, h]

theorem allocAll_preserves {rs : List Ref} :
    ∀ {env : Env} {i : Nat} {n : String}, objGet env.bindings i = some n →
      objGet (allocAll env rs).bindings i = some n := by
  induction rs with
  | nil => intro env i n h; exact h
  | cons r rest ih =>
      intro env i n h
      exact ih (nameFor_preserves h)

theorem nameFor_WF {env : Env} (r : Ref) (h : envWF env) : envWF (nameFor env r).2 := by
  unfold nameFor
  cases hob : objGet env.bindings r.id with
  | some n => simpa using h
  | none =>
      simp only
      constructor
      · simp only [List.map_append, List.map_cons, List.map_nil]
        rw [List.nodup_append]
        refine ⟨h.1, List.nodup_singleton _, ?_⟩
        intro x hx hy
        simp only [List.mem_singleton] at hy
        subst hy
        exact objGet_none_keys hob hx
      · simp only [List.map_append, List.map_cons, List.map_nil]
        rw [List.nodup_append]
        refine ⟨h.2, List.nodup_singleton _, ?_⟩
        intro x hx hy
        simp only [List.mem_singleton] at hy
        subst hy
        exact freshName_not_mem (usedNames env) r.hint hx

theorem allocAll_WF {rs : List Ref} :
    ∀ {env : Env}, envWF env → envWF (allocAll env rs) := by
  induction rs with
  | nil => intro env h; exact h
  | cons r rest ih => intro env h; exact ih (nameFor_WF r h)

theorem bound_names_distinct {env : Env} (hwf : envWF env) {i1 i2 : Nat}
    {n1 n2 : String} (h1 : objGet env.bindings i1 = some n1)
    (h2 : objGet env.bindings i2 = some n2) (hne : i1 ≠ i2) : n1 ≠ n2 := by
  intro heq
  subst heq
  have hpair := List.inj_on_of_nodup_map hwf.2 (objGet_mem h1) (objGet_mem h2) rfl
  exact hne (congrArg Prod.fst hpair)

theorem assignedName_of_unbound {env : Env} {r : Ref}
    (h : objGet env.bindings r.id = none) :
    assignedName env r = freshName (usedNames env) r.hint := by
  unfold assignedName nameFor
  rw [h]

theorem bound_name_mem_used {env : Env} {i : Nat} {n : String}
    (h : objGet env.bindings i = some n) : n ∈ usedNames env :=
  List.mem_map.mpr ⟨(i, n), objGet_mem h, rfl⟩

/-- C3: within one build, distinct references receive distinct names and each
reference keeps the name of its first allocation: after naming `r1` and then any
further sequence of allocations (in particular across clauses sequenced by
`concat`, which share the single environment), `nameFor` still returns the
original name for `r1`, and the name of any reference with a different identity
differs from it. -/
theorem claim_C3 (env : Env) (r1 r2 : Ref) (rs : List Ref)
    (hwf : envWF env) (hne : r1.id ≠ r2.id) :
    assignedName (allocAll (nameFor env r1).2 rs) r1 = assignedName env r1 ∧
    assignedName (allocAll (nameFor env r1).2 rs) r2 ≠ assignedName env r1 := by
  have hbind1 : objGet ((nameFor env r1).2).bindings r1.id =
      some (assignedName env r1) := nameFor_binds env r1
  have hbind' : objGet (allocAll (nameFor env r1).2 rs).bindings r1.id =
      some (assignedName env r1) := allocAll_preserves hbind1
  refine ⟨?_, ?_⟩
  · unfold assignedName
    rw [nameFor_of_bound hbind']
    rfl
  · have hwf' : envWF (allocAll (nameFor env r1).2 rs) :=
      allocAll_WF (nameFor_WF r1 hwf)
    cases hob : objGet (allocAll (nameFor env r1).2 rs).bindings r2.id with
    | some n2 =>
        have hr2 : assignedName (allocAll (nameFor env r1).2 rs) r2 = n2 := by
          unfold assignedName
          rw [nameFor_of_bound hob]
        rw [hr2]
        exact bound_names_distinct hwf' hob hbind' (fun hcc => hne hcc.symm)
    | none =>
        rw [assignedName_of_unbound hob]
        intro heq
        have hmem : assignedName env r1 ∈ usedNames (allocAll (nameFor env r1).2 rs) :=
          bound_name_mem_used hbind'
        rw [← heq] at hmem
        exact freshName_not_mem _ _ hmem

/-- Witness for C3 at a concrete environment and references. -/
theorem claim_C3_witness :
    envWF { bindings := [], paramCtr := 0, pfx := "" } ∧
    (Ref.mk 0 "this").id ≠ (Ref.mk 1 "this").id ∧
    (assignedName
        (allocAll (nameFor { bindings := [], paramCtr := 0, pfx := "" }
          (Ref.mk 0 "this")).2 [Ref.mk 2 "x"]) (Ref.mk 0 "this") =
      assignedName { bindings := [], paramCtr := 0, pfx := "" } (Ref.mk 0 "this") ∧
    assignedName
        (allocAll (nameFor { bindings := [], paramCtr := 0, pfx := "" }
          (Ref.mk 0 "this")).2 [Ref.mk 2 "x"]) (Ref.mk 1 "this") ≠
      assignedName { bindings := [], paramCtr := 0, pfx := "" } (Ref.mk 0 "this")) :=
  ⟨by decide, by decide,
    claim_C3 { bindings := [], paramCtr := 0, pfx := "" } (Ref.mk 0 "this")
      (Ref.mk 1 "this") [Ref.mk 2 "x"] (by decide) (by decide)⟩

theorem seqText_assoc (a b c : String) :
    seqText (seqText a b) c = seqText a (seqText b c) := by
  unfold seqText
  by_cases ha : a = ""
  · simp [ha]
  · by_cases hb : b = ""
    · simp [ha, hb]
    · by_cases hc : c = ""
      · simp only [hc, if_pos rfl, if_neg ha, if_neg hb]
        have hab : (a ++ "\n") ++ b ≠ "" :=
          strAppend_ne_empty_left b (strAppend_ne_empty_left "\n" ha)
        simp [hab, hb]
      · have hab : a ++ ("\n" ++ b) ≠ "" := by
          rw [← String.append_assoc]
          exact strAppend_ne_empty_left b (strAppend_ne_empty_left "\n" ha)
        have hbc : b ++ ("\n" ++ c) ≠ "" := by
          rw [← String.append_assoc]
          exact strAppend_ne_empty_left c (strAppend_ne_empty_left "\n" hb)
        simp [ha, hb, hc, hab, hbc, String.append_assoc]

/-- C6: `concat` is associative up to rendering: nesting `concat` calls does
not change the rendered text, the accumulated parameters, or the resulting
environment; only the top-level sequence order matters. -/
theorem claim_C6 (a b c : Clause) (env : Env) :
    render (concat [some (concat [some a, some b]), some c]) env =
    render (concat [some a, some (concat [some b, some c])]) env := by
  show render (.seq (.seq .empty (.seq (.seq .empty a) b)) c) env =
    render (.seq (.seq .empty a) (.seq (.seq .empty b) c)) env
  rcases hra : render a env with ⟨sa, pa, e1⟩
  rcases hrb : render b e1 with ⟨sb, pb, e2⟩
  rcases hrc : render c e2 with ⟨sc, pc, e3⟩
  have hemp : ∀ s : String, seqText "" s = s := fun s => rfl
  simp [render, hra, hrb, hrc, hemp, seqText_assoc]

theorem objGet_objSet {κ α : Type} [DecidableEq κ] (o : List (κ × α)) (k : κ)
    (v : α) (key : κ) :
    objGet (objSet o k v) key = if k = key then some v else objGet o key := by
  induction o with
  | nil => simp [objSet, objGet]
  | cons kv rest ih =>
      rcases kv with ⟨k0, w0⟩
      by_cases hk0 : k0 = k
      · subst hk0
        rw [objSet, if_pos rfl]
        by_cases hkey : k0 = key
        · simp [objGet, hkey]
        · simp [objGet, hkey]
      · rw [objSet, if_neg hk0]
        by_cases hkey : k0 = key
        · have hkk : k ≠ key := fun h => hk0 (hkey.trans h.symm)
          simp [objGet, hkey, hkk]
        · simp [objGet, hkey, ih]

theorem objGet_foldl_pairs {α : Type} (l : List (String × α)) :
    ∀ (init : List (String × α)) (key : String),
      objGet (l.foldl (fun acc kv => objSet acc kv.1 kv.2) init) key =
        match assignLast l key with
        | some v => some v
        | none => objGet init key := by
  induction l with
  | nil => intro init key; simp [assignLast]
  | cons kv rest ih =>
      intro init key
      rcases kv with ⟨k0, v0⟩
      simp only [List.foldl_cons]
      rw [ih]
      cases hob : assignLast rest key with
      | some w => simp [assignLast, hob]
      | none =>
          simp only [assignLast, hob]
          rw [objGet_objSet]
          by_cases hk : k0 = key <;> simp [hk]

theorem objGet_foldl_cond {α β : Type} (keyOf : α → Option String) (valOf : α → β)
    (l : List α) :
    ∀ (init : List (String × β)) (key : String),
      objGet (l.foldl (condSetStep keyOf valOf) init) key =
        match condAssignLast keyOf valOf l key with
        | some v => some v
        | none => objGet init key := by
  induction l with
  | nil => intro init key; simp [condAssignLast]
  | cons f rest ih =>
      intro init key
      simp only [List.foldl_cons]
      rw [ih]
      cases hob : condAssignLast keyOf valOf rest key with
      | some w => simp [condAssignLast, hob]
      | none =>
          simp only [condAssignLast, hob]
          cases hkf : keyOf f with
          | none => simp [condSetStep, hkf]
          | some kk =>
              simp only [condSetStep, hkf]
              rw [objGet_objSet]
              by_cases hk : kk = key <;> simp [hk]

theorem mem_keys_objSet {κ α : Type} [DecidableEq κ] (o : List (κ × α)) (k : κ)
    (v : α) (key : κ) :
    key ∈ (objSet o k v).map Prod.fst ↔ key ∈ o.map Prod.fst ∨ key = k := by
  induction o with
  | nil => simp [objSet]
  | cons kv rest ih =>
      rcases kv with ⟨k0, w0⟩
      by_cases hk0 : k0 = k
      · rw [objSet, if_pos hk0]
        subst hk0
        simp only [List.map_cons, List.mem_cons]
        tauto
      · rw [objSet, if_neg hk0]
        simp only [List.map_cons, List.mem_cons, ih]
        tauto

theorem objSet_keys_nodup {κ α : Type} [DecidableEq κ] {o : List (κ × α)} (k : κ)
    (v : α) (h : (o.map Prod.fst).Nodup) : ((objSet o k v).map Prod.fst).Nodup := by
  induction o with
  | nil => simp [objSet]
  | cons kv rest ih =>
      rcases kv with ⟨k0, w0⟩
      simp only [List.map_cons, List.nodup_cons] at h
      by_cases hk0 : k0 = k
      · rw [objSet, if_pos hk0]
        simp only [List.map_cons, List.nodup_cons]
        exact ⟨h.1, h.2⟩
      · rw [objSet, if_neg hk0]
        simp only [List.map_cons, List.nodup_cons]
        refine ⟨?_, ih h.2⟩
        rw [mem_keys_objSet]
        rintro (hm | rfl)
        · exact h.1 hm
        · exact hk0 rfl

theorem foldl_objSet_keys_nodup {α : Type} (l : List (String × α)) :
    ∀ {init : List (String × α)}, (init.map Prod.fst).Nodup →
      ((l.foldl (fun acc kv => objSet acc kv.1 kv.2) init).map Prod.fst).Nodup := by
  induction l with
  | nil => intro init h; exact h
  | cons kv rest ih =>
      intro init h
      exact ih (objSet_keys_nodup kv.1 kv.2 h)

theorem keys_convertToCypherParams (l : List (String × Value)) :
    (convertToCypherParams l).map Prod.fst = l.map Prod.fst := by
  unfold convertToCypherParams
  rw [List.map_map]
  rfl

theorem getCypherParameters_fold_eq (entries : List (String × Value))
    (node : Option Node) :
    (entries.foldl
        (fun acc kv =>
          let e := cypherParamEntry node kv
          objSet acc e.1 e.2) []) =
      (entries.map (cypherParamEntry node)).foldl
        (fun acc kv => objSet acc kv.1 kv.2) [] :=
  (List.foldl_map (cypherParamEntry node) (fun acc kv => objSet acc kv.1 kv.2)
    entries []).symm

theorem getCypherParameters_keys_nodup (entries : List (String × Value))
    (node : Option Node) :
    ((getCypherParameters entries node).map Prod.fst).Nodup := by
  unfold getCypherParameters
  rw [keys_convertToCypherParams, getCypherParameters_fold_eq]
  refine foldl_objSet_keys_nodup _ ?_
  exact List.nodup_nil

theorem assignLast_none_of_not_mem {α : Type} :
    ∀ {l : List (String × α)} {key : String}, key ∉ l.map Prod.fst →
      assignLast l key = none := by
  intro l
  induction l with
  | nil => intro key _; rfl
  | cons kv rest ih =>
      intro key h
      rcases kv with ⟨k0, v0⟩
      simp only [List.map_cons, List.mem_cons] at h
      push_neg at h
      have hr := ih h.2
      simp only [assignLast, hr]
      rw [if_neg (fun hc : k0 = key => h.1 hc.symm)]

theorem assignLast_of_mem_nodup {α : Type} :
    ∀ {l : List (String × α)} {key : String} {v : α},
      (l.map Prod.fst).Nodup → (key, v) ∈ l → assignLast l key = some v := by
  intro l
  induction l with
  | nil => intro key v _ hm; cases hm
  | cons kv rest ih =>
      intro key v hnd hm
      rcases kv with ⟨k0, v0⟩
      simp only [List.map_cons, List.nodup_cons] at hnd
      rcases List.mem_cons.mp hm with heq | hm'
      · injection heq with h1 h2
        subst h1
        subst h2
        have hr := assignLast_none_of_not_mem hnd.1
        simp [assignLast, hr]
      · have hr := ih hnd.2 hm'
        simp [assignLast, hr]

theorem objGet_convertToCypherParams (l : List (String × Value)) (key : String) :
    objGet (convertToCypherParams l) key = (objGet l key).map CParam.param := by
  induction l with
  | nil => rfl
  | cons kv rest ih =>
      rcases kv with ⟨k0, v0⟩
      by_cases hk : k0 = key
      · simp [convertToCypherParams, objGet, hk]
      · simp only [convertToCypherParams, List.map_cons, objGet, if_neg hk]
        exact ih

/-- C2 (amended): in `mergeStatement`, an explicit onCreate input value always
takes precedence over an auto-generated default for the same key: whatever
parameter the explicit onCreate record emits for a key is the parameter the
merged ON CREATE SET object carries for that key, with no conflict raised. -/
theorem claim_C2 (input : CreateOrConnectInput) (refNode : Node) (k : String)
    (p : CParam)
    (h : objGet (getCypherParameters input.onCreateNode (some refNode)) k = some p) :
    objGet (mergeNodeOnCreateObject input refNode) k = some p := by
  unfold mergeNodeOnCreateObject objSpread
  rw [objGet_foldl_pairs]
  rw [assignLast_of_mem_nodup (getCypherParameters_keys_nodup input.onCreateNode
    (some refNode)) (objGet_mem h)]

/-- C2 counterexample: on a node whose auto-generated field overlaps an
explicit onCreate key, `mergeStatement` raises no conflict: the generated
default randomUUID() is present for the key, yet the merged ON CREATE SET
object silently carries the explicit value. -/
theorem claim_C2_counterexample :
    objGet (getAutogeneratedParams sampleNode.primitiveFields
        sampleNode.temporalFields) "id" = some (CParam.raw "randomUUID()") ∧
    objGet (mergeNodeOnCreateObject sampleInput sampleNode) "id" =
      some (CParam.param (Value.str "explicit")) := by
  constructor
  · decide
  · decide

/-- Witness for C2 at the sample node and input. -/
theorem claim_C2_witness :
    objGet (getCypherParameters sampleInput.onCreateNode (some sampleNode)) "id" =
      some (CParam.param (Value.str "explicit")) ∧
    objGet (mergeNodeOnCreateObject sampleInput sampleNode) "id" =
      some (CParam.param (Value.str "explicit")) :=
  ⟨by decide,
    claim_C2 sampleInput sampleNode "id" (CParam.param (Value.str "explicit"))
      (by decide)⟩

theorem strTruthy_some {o : Option String} {s : String} (h : strTruthy o = some s) :
    s ≠ "" ∧ o = some s := by
  cases o with
  | none => simp [strTruthy] at h
  | some t =>
      simp only [strTruthy] at h
      by_cases ht : t = ""
      · rw [if_pos ht] at h
        cases h
      · rw [if_neg ht] at h
        injection h with h1
        subst h1
        exact ⟨ht, rfl⟩

theorem cypherParamEntry_of_find {node : Node} {k : String} {f : ConstrainableField}
    (hfind : node.constrainableFields.find? (fun cf => cf.fieldName == k) = some f)
    (v : Value) :
    cypherParamEntry (some node) (k, v) =
      (match strTruthy f.dbPropertyName with
       | some db => db
       | none => if f.fieldName = "" then k else f.fieldName,
       if f.array then asArrayValue v else v) := by
  simp only [cypherParamEntry, Option.some_bind, hfind]
  cases hdb : strTruthy f.dbPropertyName with
  | some db =>
      obtain ⟨hne, _⟩ := strTruthy_some hdb
      have h2 : strTruthy (some db) = some db := by simp [strTruthy, hne]
      simp only [jsOrOpt, hdb, h2]
  | none =>
      by_cases hf : f.fieldName = ""
      · have h2 : strTruthy (some f.fieldName) = none := by simp [strTruthy, hf]
        simp only [jsOrOpt, hdb, Option.map_some', h2, if_pos hf]
      · have h2 : strTruthy (some f.fieldName) = some f.fieldName := by
          simp [strTruthy, hf]
        simp only [jsOrOpt, hdb, Option.map_some', h2, if_neg hf]

/-- C8: for an input entry whose key names a constrainable field, the emitted
parameter key is the field's database property name when (truthily) present,
otherwise its field name, otherwise the input key, and the value is coerced to
an array when the field's type metadata declares an array, wrapped as a Param
node in the resulting parameter object. -/
theorem claim_C8 (entries : List (String × Value)) (node : Node) (k : String)
    (v : Value) (f : ConstrainableField)
    (hmem : (k, v) ∈ entries)
    (hfind : node.constrainableFields.find? (fun cf => cf.fieldName == k) = some f)
    (hnodup : ((entries.map (cypherParamEntry (some node))).map Prod.fst).Nodup) :
    objGet (getCypherParameters entries (some node))
        (match strTruthy f.dbPropertyName with
         | some db => db
         | none => if f.fieldName = "" then k else f.fieldName) =
      some (CParam.param (if f.array then asArrayValue v else v)) := by
  unfold getCypherParameters
  rw [objGet_convertToCypherParams, getCypherParameters_fold_eq, objGet_foldl_pairs]
  have hmem' :
      (match strTruthy f.dbPropertyName with
       | some db => db
       | none => if f.fieldName = "" then k else f.fieldName,
       if f.array then asArrayValue v else v) ∈
        entries.map (cypherParamEntry (some node)) :=
    List.mem_map.mpr ⟨(k, v), hmem, cypherParamEntry_of_find hfind v⟩
  rw [assignLast_of_mem_nodup hnodup hmem']
  rfl

/-- Witness for C8 at a concrete node with an array-typed field. -/
theorem claim_C8_witness :
    ("tags", Value.str "a") ∈ [("tags", Value.str "a")] ∧
    arrayNode.constrainableFields.find? (fun cf => cf.fieldName == "tags") =
      some { fieldName := "tags", dbPropertyName := some "tagList", array := true } ∧
    objGet (getCypherParameters [("tags", Value.str "a")] (some arrayNode)) "tagList" =
      some (CParam.param (Value.list [ScalarValue.str "a"])) :=
  ⟨by decide, by decide,
    claim_C8 [("tags", Value.str "a")] arrayNode "tags" (Value.str "a")
      { fieldName := "tags", dbPropertyName := some "tagList", array := true }
      (by decide) (by decide) (by decide)⟩

theorem assignLast_eq_objGet_of_nodup {α : Type} {l : List (String × α)}
    (h : (l.map Prod.fst).Nodup) (key : String) :
    assignLast l key = objGet l key := by
  cases hob : objGet l key with
  | some v => rw [assignLast_of_mem_nodup h (objGet_mem hob)]
  | none => rw [assignLast_none_of_not_mem (objGet_none_keys hob)]

theorem foldl_cond_keys_nodup {α β : Type} (keyOf : α → Option String)
    (valOf : α → β) (l : List α) :
    ∀ {init : List (String × β)}, (init.map Prod.fst).Nodup →
      ((l.foldl (condSetStep keyOf valOf) init).map Prod.fst).Nodup := by
  induction l with
  | nil => intro init h; exact h
  | cons f rest ih =>
      intro init h
      cases hkf : keyOf f with
      | none =>
          have hstep : condSetStep keyOf valOf init f = init := by
            simp [condSetStep, hkf]
          rw [List.foldl_cons, hstep]
          exact ih h
      | some kk =>
          have hstep : condSetStep keyOf valOf init f = objSet init kk (valOf f) := by
            simp [condSetStep, hkf]
          rw [List.foldl_cons, hstep]
          exact ih (objSet_keys_nodup kk (valOf f) h)

theorem condAssignLast_some_mem {α β : Type} (keyOf : α → Option String)
    (valOf : α → β) :
    ∀ {l : List α} {key : String} {w : β},
      condAssignLast keyOf valOf l key = some w →
      ∃ g ∈ l, keyOf g = some key ∧ valOf g = w := by
  intro l
  induction l with
  | nil => intro key w h; cases h
  | cons f rest ih =>
      intro key w h
      simp only [condAssignLast] at h
      cases hob : condAssignLast keyOf valOf rest key with
      | some u =>
          simp only [hob] at h
          injection h with h1
          subst h1
          rcases ih hob with ⟨g, hg, hk, hv⟩
          exact ⟨g, List.mem_cons_of_mem _ hg, hk, hv⟩
      | none =>
          cases hkf : keyOf f with
          | none => simp [hob, hkf] at h
          | some kk =>
              simp only [hob, hkf] at h
              by_cases hk : kk = key
              · rw [if_pos hk] at h
                injection h with h1
                subst h1
                subst hk
                exact ⟨f, List.mem_cons_self .., hkf, rfl⟩
              · rw [if_neg hk] at h
                cases h

theorem condAssignLast_eq_none_iff {α β : Type} (keyOf : α → Option String)
    (valOf : α → β) :
    ∀ (l : List α) (key : String),
      condAssignLast keyOf valOf l key = none ↔ ∀ f ∈ l, keyOf f ≠ some key := by
  intro l
  induction l with
  | nil => intro key; simp [condAssignLast]
  | cons f rest ih =>
      intro key
      simp only [condAssignLast]
      cases hob : condAssignLast keyOf valOf rest key with
      | some u =>
          simp only [hob]
          constructor
          · intro h; cases h
          · intro h
            exfalso
            have hrest : condAssignLast keyOf valOf rest key = none :=
              (ih key).mpr (fun g hg => h g (List.mem_cons_of_mem _ hg))
            rw [hob] at hrest
            cases hrest
      | none =>
          simp only [hob]
          cases hkf : keyOf f with
          | none =>
              simp only [hkf]
              constructor
              · intro _ g hg
                rcases List.mem_cons.mp hg with rfl | hg'
                · rw [hkf]; intro hc; cases hc
                · exact ((ih key).mp hob) g hg'
              · intro _; trivial
          | some kk =>
              simp only [hkf]
              by_cases hk : kk = key
              · rw [if_pos hk]
                constructor
                · intro h; cases h
                · intro h
                  exfalso
                  exact (h f (List.mem_cons_self ..)) (by rw [hkf, hk])
              · rw [if_neg hk]
                constructor
                · intro _ g hg
                  rcases List.mem_cons.mp hg with rfl | hg'
                  · rw [hkf]
                    intro hc
                    injection hc with h1
                    exact hk h1
                  · exact ((ih key).mp hob) g hg'
                · intro _; trivial

theorem condAssignLast_ne_none_iff {α β : Type} (keyOf : α → Option String)
    (valOf : α → β) (l : List α) (key : String) :
    condAssignLast keyOf valOf l key ≠ none ↔ ∃ f ∈ l, keyOf f = some key := by
  rw [Ne, condAssignLast_eq_none_iff]
  push_neg
  rfl

theorem condAssignLast_eq_some_of {α β : Type} (keyOf : α → Option String)
    (valOf : α → β) {l : List α} {key : String} {c : β}
    (hex : ∃ f ∈ l, keyOf f = some key)
    (huniq : ∀ f ∈ l, keyOf f = some key → valOf f = c) :
    condAssignLast keyOf valOf l key = some c := by
  have hne : condAssignLast keyOf valOf l key ≠ none :=
    (condAssignLast_ne_none_iff keyOf valOf l key).mpr hex
  cases hob : condAssignLast keyOf valOf l key with
  | none => exact absurd hob hne
  | some w =>
      rcases condAssignLast_some_mem keyOf valOf hob with ⟨g, hg, hk, hv⟩
      rw [← hv, huniq g hg hk]

theorem getAutogeneratedParams_objGet (pfs : List PrimitiveField)
    (tfs : List TemporalField) (key : String) :
    objGet (getAutogeneratedParams pfs tfs) key =
      match
        condAssignLast (fun f => strTruthy f.dbPropertyName)
          (fun _ => CParam.raw "randomUUID()")
          (pfs.filter (fun f => f.autogenerate)) key with
      | some v => some v
      | none =>
          condAssignLast (fun f => strTruthy f.dbPropertyName)
            (fun f => CParam.raw (strToLower f.typeName ++ "()"))
            (tfs.filter (fun f =>
              (f.typeName == "DateTime" || f.typeName == "Time") &&
                f.timestamps.contains "CREATE")) key := by
  unfold getAutogeneratedParams objSpread
  rw [objGet_foldl_pairs]
  have hprimNodup :
      (((pfs.filter (fun f => f.autogenerate)).foldl
          (condSetStep (fun f => strTruthy f.dbPropertyName)
            (fun _ => CParam.raw "randomUUID()")) []).map Prod.fst).Nodup :=
    foldl_cond_keys_nodup _ _ _ List.nodup_nil
  rw [assignLast_eq_objGet_of_nodup hprimNodup]
  rw [objGet_foldl_cond, objGet_foldl_cond]
  cases hp : condAssignLast (fun f => strTruthy f.dbPropertyName)
      (fun _ => CParam.raw "randomUUID()")
      (pfs.filter (fun f => f.autogenerate)) key with
  | some v => simp
  | none =>
      simp only
      cases ht : condAssignLast (fun f => strTruthy f.dbPropertyName)
          (fun f => CParam.raw (strToLower f.typeName ++ "()"))
          (tfs.filter (fun f =>
            (f.typeName == "DateTime" || f.typeName == "Time") &&
              f.timestamps.contains "CREATE")) key with
      | some v => simp [objGet]
      | none => simp [objGet]

/-- C9: the auto-generated defaults include an entry only for fields whose
database property name is (truthily) present — fields without one are silently
omitted; an included auto-generated primitive field maps to the raw fragment
randomUUID() (also when a temporal entry shares the same database property
name: the primitive entry wins); a CREATE-stamped DateTime or Time temporal
field maps to datetime() or time() respectively when no primitive entry takes
its key. -/
theorem claim_C9 (pfs : List PrimitiveField) (tfs : List TemporalField)
    (k : String) :
    ((objGet (getAutogeneratedParams pfs tfs) k).isSome ↔
      (∃ f ∈ pfs, f.autogenerate = true ∧ strTruthy f.dbPropertyName = some k) ∨
      (∃ t ∈ tfs, (t.typeName = "DateTime" ∨ t.typeName = "Time") ∧
        t.timestamps.contains "CREATE" = true ∧ strTruthy t.dbPropertyName = some k)) ∧
    ((∃ f ∈ pfs, f.autogenerate = true ∧ strTruthy f.dbPropertyName = some k) →
      objGet (getAutogeneratedParams pfs tfs) k = some (CParam.raw "randomUUID()")) ∧
    (∀ t ∈ tfs, t.timestamps.contains "CREATE" = true →
      strTruthy t.dbPropertyName = some k →
      (¬ ∃ f ∈ pfs, f.autogenerate = true ∧ strTruthy f.dbPropertyName = some k) →
      (∀ t2 ∈ tfs, t2.timestamps.contains "CREATE" = true →
        strTruthy t2.dbPropertyName = some k →
        (t2.typeName = "DateTime" ∨ t2.typeName = "Time") →
        t2.typeName = t.typeName) →
      ((t.typeName = "DateTime" →
          objGet (getAutogeneratedParams pfs tfs) k = some (CParam.raw "datetime()")) ∧
       (t.typeName = "Time" →
          objGet (getAutogeneratedParams pfs tfs) k = some (CParam.raw "time()")))) := by
  have hPex :
      (∃ f ∈ pfs.filter (fun f => f.autogenerate),
          strTruthy f.dbPropertyName = some k) ↔
      (∃ f ∈ pfs, f.autogenerate = true ∧ strTruthy f.dbPropertyName = some k) := by
    simp [List.mem_filter, and_assoc]
  have hTex :
      (∃ t ∈ tfs.filter (fun t =>
          (t.typeName == "DateTime" || t.typeName == "Time") &&
            t.timestamps.contains "CREATE"),
          strTruthy t.dbPropertyName = some k) ↔
      (∃ t ∈ tfs, (t.typeName = "DateTime" ∨ t.typeName = "Time") ∧
        t.timestamps.contains "CREATE" = true ∧
        strTruthy t.dbPropertyName = some k) := by
    simp only [List.mem_filter, Bool.and_eq_true, Bool.or_eq_true, beq_iff_eq]
    constructor
    · rintro ⟨t, ⟨ht, ⟨hor, hcr⟩⟩, hk⟩
      exact ⟨t, ht, hor, hcr, hk⟩
    · rintro ⟨t, ht, hor, hcr, hk⟩
      exact ⟨t, ⟨ht, ⟨hor, hcr⟩⟩, hk⟩
  refine ⟨?_, ?_, ?_⟩
  · rw [getAutogeneratedParams_objGet]
    cases hp : condAssignLast (fun f => strTruthy f.dbPropertyName)
        (fun _ => CParam.raw "randomUUID()")
        (pfs.filter (fun f => f.autogenerate)) k with
    | some v =>
        simp only [Option.isSome_some, true_iff]
        refine Or.inl (hPex.mp ?_)
        rcases condAssignLast_some_mem _ _ hp with ⟨g, hg, hk, _⟩
        exact ⟨g, hg, hk⟩
    | none =>
        simp only
        constructor
        · intro hs
          refine Or.inr (hTex.mp ?_)
          rcases Option.isSome_iff_exists.mp hs with ⟨v, hv⟩
          rcases condAssignLast_some_mem _ _ hv with ⟨g, hg, hk, _⟩
          exact ⟨g, hg, hk⟩
        · rintro (hex | hex)
          · exfalso
            have hne : condAssignLast (fun f => strTruthy f.dbPropertyName)
                (fun _ => CParam.raw "randomUUID()")
                (pfs.filter (fun f => f.autogenerate)) k ≠ none :=
              (condAssignLast_ne_none_iff ..).mpr (hPex.mpr hex)
            exact hne hp
          · have hne : condAssignLast (fun f => strTruthy f.dbPropertyName)
                (fun f => CParam.raw (strToLower f.typeName ++ "()"))
                (tfs.filter (fun t =>
                  (t.typeName == "DateTime" || t.typeName == "Time") &&
                    t.timestamps.contains "CREATE")) k ≠ none :=
              (condAssignLast_ne_none_iff ..).mpr (hTex.mpr hex)
            exact Option.ne_none_iff_isSome.mp hne
  · intro hex
    rw [getAutogeneratedParams_objGet]
    have hsome : condAssignLast (fun f => strTruthy f.dbPropertyName)
        (fun _ => CParam.raw "randomUUID()")
        (pfs.filter (fun f => f.autogenerate)) k =
          some (CParam.raw "randomUUID()") :=
      condAssignLast_eq_some_of _ _ (hPex.mpr hex) (fun _ _ _ => rfl)
    rw [hsome]
  · intro t ht hcre hdb hnprim huniq
    have hpnone : condAssignLast (fun f => strTruthy f.dbPropertyName)
        (fun _ => CParam.raw "randomUUID()")
        (pfs.filter (fun f => f.autogenerate)) k = none := by
      by_contra hne
      exact hnprim (hPex.mp ((condAssignLast_ne_none_iff ..).mp hne))
    constructor
    · intro hdt
      have hsome : condAssignLast (fun f => strTruthy f.dbPropertyName)
          (fun f => CParam.raw (strToLower f.typeName ++ "()"))
          (tfs.filter (fun t =>
            (t.typeName == "DateTime" || t.typeName == "Time") &&
              t.timestamps.contains "CREATE")) k =
            some (CParam.raw "datetime()") := by
        refine condAssignLast_eq_some_of _ _
          ⟨t, List.mem_filter.mpr ⟨ht, by simp [hdt, List.elem_iff.mp hcre]⟩, hdb⟩ ?_
        intro t2 ht2 hk2
        rcases List.mem_filter.mp ht2 with ⟨ht2mem, hpred⟩
        simp only [Bool.and_eq_true, Bool.or_eq_true, beq_iff_eq] at hpred
        have htt : t2.typeName = t.typeName :=
          huniq t2 ht2mem hpred.2 hk2 hpred.1
        rw [htt, hdt]
        rfl
      rw [getAutogeneratedParams_objGet, hpnone]
      simp only
      rw [hsome]
    · intro hdt
      have hsome : condAssignLast (fun f => strTruthy f.dbPropertyName)
          (fun f => CParam.raw (strToLower f.typeName ++ "()"))
          (tfs.filter (fun t =>
            (t.typeName == "DateTime" || t.typeName == "Time") &&
              t.timestamps.contains "CREATE")) k =
            some (CParam.raw "time()") := by
        refine condAssignLast_eq_some_of _ _
          ⟨t, List.mem_filter.mpr ⟨ht, by simp [hdt, List.elem_iff.mp hcre]⟩, hdb⟩ ?_
        intro t2 ht2 hk2
        rcases List.mem_filter.mp ht2 with ⟨ht2mem, hpred⟩
        simp only [Bool.and_eq_true, Bool.or_eq_true, beq_iff_eq] at hpred
        have htt : t2.typeName = t.typeName :=
          huniq t2 ht2mem hpred.2 hk2 hpred.1
        rw [htt, hdt]
        rfl
      rw [getAutogeneratedParams_objGet, hpnone]
      simp only
      rw [hsome]

/-- Witness for C9 at concrete primitive and temporal fields. -/
theorem claim_C9_witness :
    objGet (getAutogeneratedParams samplePrimitiveFields sampleTemporalFields)
        "uuid" = some (CParam.raw "randomUUID()") ∧
    objGet (getAutogeneratedParams samplePrimitiveFields sampleTemporalFields)
        "createdAt" = some (CParam.raw "datetime()") :=
  ⟨(claim_C9 samplePrimitiveFields sampleTemporalFields "uuid").2.1 (by decide),
   ((claim_C9 samplePrimitiveFields sampleTemporalFields "createdAt").2.2
      { fieldName := "createdAt", dbPropertyName := some "createdAt",
        typeName := "DateTime", timestamps := ["CREATE"] }
      (by decide) (by decide) (by decide) (by decide) (by decide)).1 rfl⟩

theorem checkConflicts_find (refNode : Node) :
    ∀ (items : List CreateOrConnectInput) (item : CreateOrConnectInput),
      items.find?
          (fun it => !(findConflictingProperties refNode it.onCreateNode).isEmpty) =
        some item →
      checkConflicts refNode items =
        .error (conflictErrorMessage refNode
          (findConflictingProperties refNode item.onCreateNode)) := by
  intro items
  induction items with
  | nil => intro item h; cases h
  | cons it rest ih =>
      intro item h
      by_cases hp : (findConflictingProperties refNode it.onCreateNode).isEmpty = true
      · rw [List.find?_cons_of_neg _ (by simp [hp])] at h
        have hlen : ¬(findConflictingProperties refNode it.onCreateNode).length > 0 := by
          rw [List.isEmpty_iff.mp hp]
          simp
        simp only [checkConflicts, if_neg hlen]
        exact ih item h
      · rw [List.find?_cons_of_pos _ (by simp [hp])] at h
        injection h with h1
        subst h1
        have hlen : (findConflictingProperties refNode it.onCreateNode).length > 0 := by
          cases hll : findConflictingProperties refNode it.onCreateNode with
          | nil => rw [hll] at hp; exact absurd rfl hp
          | cons a l => simp
        simp only [checkConflicts, if_pos hlen]

/-- C1: if any input item carries two creation-time property assignments that
target the same field with different intended values, the whole call aborts
with the descriptive error naming the conflicting fields and the node type
(built for the first offending item, as the eager per-item check runs before
any clause construction), and no query result is produced. -/
theorem claim_C1 (input : OneOrMany CreateOrConnectInput)
    (varName parentVar : String) (relationField : RelationField)
    (refNode node : Node) (context : Context) (withVars : List String)
    (item : CreateOrConnectInput) (hmem : item ∈ asArray input)
    (hconf : findConflictingProperties refNode item.onCreateNode ≠ []) :
    ∃ firstItem,
      (asArray input).find?
          (fun it => !(findConflictingProperties refNode it.onCreateNode).isEmpty) =
        some firstItem ∧
      createConnectOrCreateAndParams input varName parentVar relationField refNode
          node context withVars =
        .error (conflictErrorMessage refNode
          (findConflictingProperties refNode firstItem.onCreateNode)) := by
  have hs : ((asArray input).find?
      (fun it => !(findConflictingProperties refNode it.onCreateNode).isEmpty)).isSome := by
    rw [List.find?_isSome]
    refine ⟨item, hmem, ?_⟩
    simp only [Bool.not_eq_true']
    rw [List.isEmpty_eq_false]
    exact hconf
  rcases Option.isSome_iff_exists.mp hs with ⟨firstItem, hfind⟩
  refine ⟨firstItem, hfind, ?_⟩
  unfold createConnectOrCreateAndParams
  rw [checkConflicts_find refNode (asArray input) firstItem hfind]

/-- Witness for C1 at a concrete clashing input. -/
theorem claim_C1_witness :
    clashInput ∈ asArray (OneOrMany.one clashInput) ∧
    findConflictingProperties clashNode clashInput.onCreateNode ≠ [] ∧
    ∃ firstItem,
      (asArray (OneOrMany.one clashInput)).find?
          (fun it => !(findConflictingProperties clashNode it.onCreateNode).isEmpty) =
        some firstItem ∧
      createConnectOrCreateAndParams (OneOrMany.one clashInput) "v" "p"
          sampleRelField clashNode sampleNode sampleContextOff [] =
        .error (conflictErrorMessage clashNode
          (findConflictingProperties clashNode firstItem.onCreateNode)) :=
  ⟨by decide, by decide,
    claim_C1 (OneOrMany.one clashInput) "v" "p" sampleRelField clashNode
      sampleNode sampleContextOff [] clashInput (by decide) (by decide)⟩

theorem mapWithIndex_getElem? {α β : Type} (f : Nat → α → β) :
    ∀ (l : List α) (start i : Nat),
      (mapWithIndex f start l)[i]? = (l[i]?).map (f (start + i)) := by
  intro l
  induction l with
  | nil => intro start i; simp [mapWithIndex]
  | cons a rest ih =>
      intro start i
      cases i with
      | zero => simp [mapWithIndex]
      | succ j =>
          simp only [mapWithIndex, List.getElem?_cons_succ]
          rw [ih (start + 1) j]
          have harith : start + 1 + j = start + (j + 1) := by omega
          rw [harith]

/-- C5: the i-th partial statement is built with base name
`varName ++ decimal i`, and distinct indices receive distinct base names, so
repeated sub-statements in one batch cannot clobber one another within the
single shared build. -/
theorem claim_C5 (input : OneOrMany CreateOrConnectInput)
    (varName parentVar : String) (relationField : RelationField)
    (refNode node : Node) (context : Context) (withVars : List String)
    (i j : Nat) (hne : i ≠ j) :
    (connectOrCreateStatements input varName parentVar relationField refNode node
        context withVars)[i]? =
      ((asArray input)[i]?).map (fun inputItem =>
        createConnectOrCreatePartialStatement inputItem (subqueryBaseName varName i)
          parentVar relationField refNode node context withVars i) ∧
    subqueryBaseName varName i ≠ subqueryBaseName varName j := by
  constructor
  · unfold connectOrCreateStatements
    rw [mapWithIndex_getElem?]
    simp
  · unfold subqueryBaseName
    intro h
    exact hne (natToDecimal_inj (strAppend_cancel_left h))

/-- Witness for C5 at a concrete batch. -/
theorem claim_C5_witness :
    (connectOrCreateStatements (OneOrMany.many [sampleInput]) "v" "p"
        sampleRelField sampleNode sampleNode sampleContextOff ["this"])[0]? =
      ((asArray (OneOrMany.many [sampleInput]))[0]?).map (fun inputItem =>
        createConnectOrCreatePartialStatement inputItem (subqueryBaseName "v" 0)
          "p" sampleRelField sampleNode sampleNode sampleContextOff ["this"] 0) ∧
    subqueryBaseName "v" 0 ≠ subqueryBaseName "v" 1 :=
  claim_C5 (OneOrMany.many [sampleInput]) "v" "p" sampleRelField sampleNode
    sampleNode sampleContextOff ["this"] 0 1 (by decide)

/-- C7: with subscriptions enabled, `mergeStatement` ends with a raw WITH
fragment whose text is computed at render time from the environment-resolved
name of the merged relationship and the names of its source and target nodes,
followed by the enclosing withVars and the subquery variable with the meta
variable filtered out; with subscriptions disabled the statement ends with the
relationship merge and no such fragment is appended. -/
theorem claim_C7 (input : CreateOrConnectInput) (refNode parentRefNode : Node)
    (context : Context) (relationField : RelationField) (parentNode : NamedNode)
    (varName : String) (withVars : List String) (relId : Nat) :
    (context.subscriptionsEnabled = true →
      ∃ m rel relOC f,
        mergeStatement input refNode parentRefNode context relationField
            parentNode varName withVars relId =
          Clause.seq (Clause.seq (Clause.seq Clause.empty m)
            (Clause.mergeRel rel relOC)) (Clause.raw f) ∧
        (∀ env : Env,
          f env =
            ("WITH " ++
              createRelEventMeta "connect" (nameFor env rel.ref).1 rel.source.name
                rel.target.name relationField.relType
                (if relationField.direction = "IN" then refNode.name
                 else parentRefNode.name)
                (if relationField.direction = "IN" then parentRefNode.name
                 else refNode.name) ++ ", " ++
              String.intercalate ", " (filterMetaVariable (withVars ++ [varName])),
              []))) ∧
    (context.subscriptionsEnabled = false →
      ∃ m rel relOC,
        mergeStatement input refNode parentRefNode context relationField
            parentNode varName withVars relId =
          Clause.seq (Clause.seq Clause.empty m) (Clause.mergeRel rel relOC)) := by
  constructor
  · intro hsub
    unfold mergeStatement
    simp only [hsub]
    exact ⟨_, _, _, _, rfl, fun env => rfl⟩
  · intro hsub
    unfold mergeStatement
    simp only [hsub]
    exact ⟨_, _, _, rfl⟩

/-- Witness for C7 at concrete inputs, with subscriptions enabled and disabled. -/
theorem claim_C7_witness :
    (∃ m rel relOC f,
      mergeStatement sampleInput sampleNode sampleNode sampleContextOn
          sampleRelField { name := "p", labels := [] } "v0" ["this"] 0 =
        Clause.seq (Clause.seq (Clause.seq Clause.empty m)
          (Clause.mergeRel rel relOC)) (Clause.raw f) ∧
      (∀ env : Env,
        f env =
          ("WITH " ++
            createRelEventMeta "connect" (nameFor env rel.ref).1 rel.source.name
              rel.target.name sampleRelField.relType
              (if sampleRelField.direction = "IN" then sampleNode.name
               else sampleNode.name)
              (if sampleRelField.direction = "IN" then sampleNode.name
               else sampleNode.name) ++ ", " ++
            String.intercalate ", " (filterMetaVariable (["this"] ++ ["v0"])),
            []))) ∧
    (∃ m rel relOC,
      mergeStatement sampleInput sampleNode sampleNode sampleContextOff
          sampleRelField { name := "p", labels := [] } "v0" ["this"] 0 =
        Clause.seq (Clause.seq Clause.empty m) (Clause.mergeRel rel relOC)) :=
  ⟨(claim_C7 sampleInput sampleNode sampleNode sampleContextOn sampleRelField
      { name := "p", labels := [] } "v0" ["this"] 0).1 rfl,
   (claim_C7 sampleInput sampleNode sampleNode sampleContextOff sampleRelField
      { name := "p", labels := [] } "v0" ["this"] 0).2 rfl⟩

/-- C10: the partial statement appends an auth clause exactly when the node has
auth rules and the auth provider yields a non-empty predicate; in that case the
merge query is followed by WITH * and a raw clause rendering
CALL apoc.util.validate(NOT (predicate), forbidden-message, [0]) carrying the
provider's parameters, and otherwise the merge query is returned unchanged. -/
theorem claim_C10 (input : CreateOrConnectInput) (baseName parentVar : String)
    (relationField : RelationField) (refNode node : Node) (context : Context)
    (withVars : List String) (relId : Nat) :
    (refNode.auth = true →
      (context.authProvider refNode ["CONNECT", "CREATE"] baseName
          (baseName ++ refNode.name ++ "_allow")).1 ≠ "" →
      ∃ f,
        createConnectOrCreatePartialStatement input baseName parentVar
            relationField refNode node context withVars relId =
          Clause.seq (Clause.seq (Clause.seq Clause.empty
            (mergeStatement input refNode node context relationField
              { name := parentVar, labels := [] } baseName withVars relId))
            (Clause.withClause [WithProjection.star])) (Clause.raw f) ∧
        (∀ env : Env,
          f env =
            ("CALL apoc.util.validate(NOT (" ++
              (context.authProvider refNode ["CONNECT", "CREATE"] baseName
                (baseName ++ refNode.name ++ "_allow")).1 ++ "), \"" ++
              AUTH_FORBIDDEN_ERROR ++ "\", [0])",
             (context.authProvider refNode ["CONNECT", "CREATE"] baseName
               (baseName ++ refNode.name ++ "_allow")).2))) ∧
    ((refNode.auth = false ∨
      (context.authProvider refNode ["CONNECT", "CREATE"] baseName
          (baseName ++ refNode.name ++ "_allow")).1 = "") →
      createConnectOrCreatePartialStatement input baseName parentVar relationField
          refNode node context withVars relId =
        mergeStatement input refNode node context relationField
          { name := parentVar, labels := [] } baseName withVars relId) := by
  constructor
  · intro hauth hpred
    unfold createConnectOrCreatePartialStatement createAuthStatement
    simp only [hauth, if_true]
    rw [if_neg hpred]
    exact ⟨_, rfl, fun env => rfl⟩
  · rintro (hauth | hpred)
    · unfold createConnectOrCreatePartialStatement createAuthStatement
      simp only [hauth]
      rfl
    · unfold createConnectOrCreatePartialStatement createAuthStatement
      cases hauth : refNode.auth with
      | false =>
          simp only [hauth]
          rfl
      | true =>
          simp only [hauth, if_true]
          rw [if_pos hpred]

/-- Witness for C10 at concrete inputs, with and without an auth predicate. -/
theorem claim_C10_witness :
    (∃ f,
      createConnectOrCreatePartialStatement sampleInput "v0" "p" sampleRelField
          authNode sampleNode sampleContextAuth ["this"] 0 =
        Clause.seq (Clause.seq (Clause.seq Clause.empty
          (mergeStatement sampleInput authNode sampleNode sampleContextAuth
            sampleRelField { name := "p", labels := [] } "v0" ["this"] 0))
          (Clause.withClause [WithProjection.star])) (Clause.raw f) ∧
      (∀ env : Env,
        f env =
          ("CALL apoc.util.validate(NOT (" ++
            (sampleContextAuth.authProvider authNode ["CONNECT", "CREATE"] "v0"
              ("v0" ++ authNode.name ++ "_allow")).1 ++ "), \"" ++
            AUTH_FORBIDDEN_ERROR ++ "\", [0])",
           (sampleContextAuth.authProvider authNode ["CONNECT", "CREATE"] "v0"
             ("v0" ++ authNode.name ++ "_allow")).2))) ∧
    (createConnectOrCreatePartialStatement sampleInput "v0" "p" sampleRelField
        sampleNode sampleNode sampleContextOff ["this"] 0 =
      mergeStatement sampleInput sampleNode sampleNode sampleContextOff
        sampleRelField { name := "p", labels := [] } "v0" ["this"] 0) :=
  ⟨(claim_C10 sampleInput "v0" "p" sampleRelField authNode sampleNode
      sampleContextAuth ["this"] 0).1 rfl (by decide),
   (claim_C10 sampleInput "v0" "p" sampleRelField sampleNode sampleNode
      sampleContextOff ["this"] 0).2 (Or.inl rfl)⟩

theorem mapWithIndex_length {α β : Type} (f : Nat → α → β) :
    ∀ (l : List α) (start : Nat), (mapWithIndex f start l).length = l.length := by
  intro l
  induction l with
  | nil => intro start; rfl
  | cons a rest ih => intro start; simp [mapWithIndex, ih]

theorem render_with_call (projs : List WithProjection) (inner : Clause)
    (vars : List NamedVariable) (env : Env) (hv : vars.isEmpty = false) :
    ∃ rest ps e',
      render (Clause.seq (Clause.seq Clause.empty (Clause.withClause projs))
        (Clause.call inner vars)) env =
        ("WITH " ++ String.intercalate ", " (projs.map renderProjection) ++ "\n" ++
          ("CALL \x7b\n" ++
            ("WITH " ++ String.intercalate ", " (vars.map (fun v => v.name)) ++ "\n") ++
            rest ++ "\n\x7d"), ps, e') := by
  rcases hr : render inner env with ⟨si, pi, ei⟩
  refine ⟨si, pi, ei, ?_⟩
  have hemp : ∀ s : String, seqText "" s = s := fun s => rfl
  simp only [render, hr, hv, hemp, Bool.false_eq_true, if_false, List.nil_append,
    List.append_nil]
  have h1 : "WITH " ++ String.intercalate ", " (projs.map renderProjection) ≠ "" :=
    strAppend_ne_empty_left _ (by decide)
  have h2 : (("CALL \x7b\n" ++
      ("WITH " ++ String.intercalate ", " (vars.map (fun v => v.name)) ++ "\n")) ++
      si) ++ "\n\x7d" ≠ "" :=
    strAppend_ne_empty_left _ (strAppend_ne_empty_left _
      (strAppend_ne_empty_left _ (by decide)))
  simp [seqText, h1, h2]

/-- C4: each input element's partial statement is wrapped as a WITH clause
projecting the withVars variables, immediately followed by a CALL subquery
whose innerWith imports those same variables; the import line inside the CALL
block carries exactly the same rendered names as the enclosing WITH projection
(named variables resolve to their fixed names in any environment). -/
theorem claim_C4 (input : OneOrMany CreateOrConnectInput)
    (varName parentVar : String) (relationField : RelationField)
    (refNode node : Node) (context : Context) (withVars : List String)
    (env : Env) (i : Nat) (hw : withVars ≠ [])
    (hi : i < (asArray input).length) :
    ∃ rest ps e',
      ((connectOrCreateWrappedQueries input varName parentVar relationField
          refNode node context withVars)[i]?).map (fun w => render w env) =
        some
          ("WITH " ++ String.intercalate ", " withVars ++ "\n" ++
            ("CALL \x7b\n" ++
              ("WITH " ++ String.intercalate ", " withVars ++ "\n") ++
              rest ++ "\n\x7d"), ps, e') := by
  have hlen : i < (connectOrCreateStatements input varName parentVar relationField
      refNode node context withVars).length := by
    unfold connectOrCreateStatements
    rw [mapWithIndex_length]
    exact hi
  have hstmt := List.getElem?_eq_getElem hlen
  unfold connectOrCreateWrappedQueries
  rw [List.getElem?_map, hstmt]
  simp only [Option.map_some']
  have hv : (withVars.map (fun n => ({ name := n } : NamedVariable))).isEmpty =
      false := by
    cases withVars with
    | nil => exact absurd rfl hw
    | cons a l => rfl
  obtain ⟨rest, ps, e', hr⟩ := render_with_call
    ((withVars.map (fun n => ({ name := n } : NamedVariable))).map
      WithProjection.varProj)
    (concat [some ((connectOrCreateStatements input varName parentVar relationField
        refNode node context withVars)[i]),
      some (Clause.ret (fun _ =>
        (if context.subscriptionsEnabled then "meta as update_meta"
         else "COUNT(*) AS _", [])))])
    (withVars.map (fun n => ({ name := n } : NamedVariable))) env hv
  refine ⟨rest, ps, e', ?_⟩
  have hwrapeq : wrapConnectOrCreate context
      (withVars.map (fun n => ({ name := n } : NamedVariable)))
      ((connectOrCreateStatements input varName parentVar relationField refNode
        node context withVars)[i]) =
      Clause.seq (Clause.seq Clause.empty
        (Clause.withClause ((withVars.map (fun n => ({ name := n } : NamedVariable))).map
          WithProjection.varProj)))
        (Clause.call (concat [some ((connectOrCreateStatements input varName
            parentVar relationField refNode node context withVars)[i]),
          some (Clause.ret (fun _ =>
            (if context.subscriptionsEnabled then "meta as update_meta"
             else "COUNT(*) AS _", [])))])
          (withVars.map (fun n => ({ name := n } : NamedVariable)))) := rfl
  rw [hwrapeq, hr]
  have hm1 : ((withVars.map (fun n => ({ name := n } : NamedVariable))).map
      WithProjection.varProj).map renderProjection = withVars := by
    rw [List.map_map, List.map_map]
    exact List.map_id withVars
  have hm2 : (withVars.map (fun n => ({ name := n } : NamedVariable))).map
      (fun v => v.name) = withVars := by
    rw [List.map_map]
    exact List.map_id withVars
  rw [hm1, hm2]

/-- Witness for C4 at a concrete input and environment. -/
theorem claim_C4_witness :
    ∃ rest ps e',
      ((connectOrCreateWrappedQueries (OneOrMany.one sampleInput) "v" "p"
          sampleRelField sampleNode sampleNode sampleContextOff ["this"])[0]?).map
          (fun w => render w { bindings := [], paramCtr := 0, pfx := "v_" }) =
        some
          ("WITH " ++ String.intercalate ", " ["this"] ++ "\n" ++
            ("CALL \x7b\n" ++
              ("WITH " ++ String.intercalate ", " ["this"] ++ "\n") ++
              rest ++ "\n\x7d"), ps, e') :=
  claim_C4 (OneOrMany.one sampleInput) "v" "p" sampleRelField sampleNode
    sampleNode sampleContextOff ["this"]
    { bindings := [], paramCtr := 0, pfx := "v_" } 0 (by decide) (by decide)
